import Mathlib

/-!
# Verification of the RAG microservice core (`app.py`)

Shallow embedding of the retrieval-pipeline core of the RAG microservice:
namespace resolution (`get_namespace`), text extraction and its dispatch
(`extract`, with the library-backed decoders `PdfReader` / `DocxDoc` /
`bytes.decode` modelled as oracle parameters), whitespace normalization
(`" ".join(text.split())`), the embedding endpoint (`embed`), and the
vector-store endpoints (`pinecone_upsert`, `pinecone_query`).  Remote
adapters are modelled as function parameters; each endpoint additionally
returns the list of remote calls it performed, so that "no remote call is
made" claims are statable.
-/

namespace RAG

/-- Python's ASCII whitespace characters (the set recognised by `str.split()`
and `str.strip()` on ASCII input): space, tab, newline, carriage return,
vertical tab, form feed. -/
def pyIsSpace (c : Char) : Bool :=
  c == ' ' || c == '\t' || c == '\n' || c == '\r' ||
  c == Char.ofNat 11 || c == Char.ofNat 12

/-- `str.strip()` on a character list: drop whitespace from both ends. -/
def pyStripL (l : List Char) : List Char :=
  ((l.dropWhile pyIsSpace).reverse.dropWhile pyIsSpace).reverse

/-- Python `str.strip()`. -/
def pyStrip (s : String) : String :=
  String.mk (pyStripL s.data)

/-- `get_namespace` (app.py lines 43-47):
`return (ns or "").strip() or RAG_NAMESPACE`.
`ns or ""` maps `None` (and `""`) to `""`; a falsy (empty) stripped string
falls back to the configured default namespace `RAG_NAMESPACE`, passed here
as the `ragNamespace` parameter. -/
def get_namespace (ragNamespace : String) (ns : Option String) : String :=
  let t := pyStrip (ns.getD "")
  if t = "" then ragNamespace else t

/-! ## Helper lemmas about stripping -/

theorem dropWhile_all_of_all {p : Char → Bool} {l : List Char}
    (h : l.all p) : (l.dropWhile p).all p := by
  induction l with
  | nil => simp [List.dropWhile]
  | cons c t ih =>
    simp only [List.all_cons, Bool.and_eq_true] at h
    simp only [List.dropWhile]
    rw [h.1]
    exact ih h.2

theorem all_of_dropWhile_all {p : Char → Bool} {l : List Char}
    (h : (l.dropWhile p).all p) : l.all p := by
  induction l with
  | nil => simp
  | cons c t ih =>
    simp only [List.dropWhile] at h
    by_cases hc : p c
    · rw [hc] at h
      simp only [List.all_cons, Bool.and_eq_true]
      exact ⟨hc, ih h⟩
    · rw [Bool.not_eq_true] at hc
      rw [hc] at h
      simp only [Bool.ite_eq_true_distrib, if_false] at h
      simp only [List.all_cons, Bool.and_eq_true] at h
      exact absurd h.1 (by simp [hc])

theorem pyStripL_eq_nil_iff (l : List Char) :
    pyStripL l = [] ↔ l.all pyIsSpace := by
  unfold pyStripL
  rw [List.reverse_eq_nil_iff, List.dropWhile_eq_nil_iff]
  constructor
  · intro h
    apply @all_of_dropWhile_all pyIsSpace l
    rw [List.all_eq_true]
    intro x hx
    exact h x (by simpa using hx)
  · intro h x hx
    rw [List.mem_reverse] at hx
    have := @dropWhile_all_of_all pyIsSpace l h
    rw [List.all_eq_true] at this
    exact this x hx

theorem pyStrip_eq_empty_iff (s : String) :
    pyStrip s = "" ↔ s.data.all pyIsSpace := by
  unfold pyStrip
  rw [show ("" : String) = String.mk [] from rfl]
  constructor
  · intro h
    exact (pyStripL_eq_nil_iff s.data).mp (congrArg String.data h)
  · intro h
    exact congrArg String.mk ((pyStripL_eq_nil_iff s.data).mpr h)

/-- C1. Namespace resolution (`get_namespace`, app.py lines 43-47): for an
absent, empty, or whitespace-only input the configured default namespace is
returned; otherwise the input with surrounding whitespace trimmed is
returned.  The function is a total Lean function (pure, no failure mode). -/
theorem get_namespace_resolution (d : String) (s : Option String) :
    get_namespace d s =
      if (s.getD "").data.all pyIsSpace then d else pyStrip (s.getD "") := by
  unfold get_namespace
  by_cases h : (s.getD "").data.all pyIsSpace
  · rw [if_pos h, if_pos ((pyStrip_eq_empty_iff _).mpr h)]
  · rw [if_neg h, if_neg (fun hc => h ((pyStrip_eq_empty_iff _).mp hc))]

/-! ## Query orchestrator (`pinecone_query`, app.py lines 151-184)

Vector entries have abstract type `α` (floats are only forwarded, never
computed with), metadata values have abstract type `μ` (a `filter` dict is an
association list), the embedding-provider error type is `ε` and the
vector-store response type is `ρ`.  The remote embedding call
`client.embeddings.create(model=..., input=[body.text], dimensions=...)
.data[0].embedding` is modelled by the oracle `embedOne`; the remote store
call `index.query(**payload)` by the oracle `indexQuery`.  The function
returns its result together with the list of remote calls it performed. -/

/-- Request body `QueryIn` (app.py lines 86-93).  `nspace` embeds the
`namespace` field (a Lean keyword). -/
structure QueryIn (α μ : Type) where
  nspace : Option String
  vector : Option (List α)
  text : Option String
  filter : Option (List (String × μ))
  topK : Int
  includeValues : Bool
  includeMetadata : Bool

/-- The keyword-argument dict passed to `index.query` (app.py lines
173-181); `filter` is included only when `body.filter` is truthy (a `None`
or empty dict is omitted). -/
structure QueryPayload (α μ : Type) where
  nspace : String
  vector : List α
  topK : Int
  includeValues : Bool
  includeMetadata : Bool
  filter : Option (List (String × μ))
deriving DecidableEq

/-- A remote call performed while serving `/pinecone/query`. -/
inductive QCall (α μ : Type) where
  | embedCall (input : List String)
  | queryCall (payload : QueryPayload α μ)
deriving DecidableEq

/-- Result of `/pinecone/query`: the missing-input error body
`{"ok": False, "error": "Provide 'text' or 'vector'."}`, a propagated
embedding-provider exception, or the success body
`{"ok": True, "namespace": ns, **res}`. -/
inductive QueryOut (ε ρ : Type) where
  | missingInput
  | embedError (e : ε)
  | success (nspace : String) (res : ρ)
deriving DecidableEq

/-- The payload dict built at app.py lines 173-181 for a resolved namespace
`ns` and chosen query vector `emb`. -/
def mkPayload {α μ : Type} (ns : String) (emb : List α) (body : QueryIn α μ) :
    QueryPayload α μ :=
  { nspace := ns
    vector := emb
    topK := body.topK
    includeValues := body.includeValues
    includeMetadata := body.includeMetadata
    filter := match body.filter with
      | some f => if f.isEmpty then none else some f
      | none => none }

/-- `pinecone_query` (app.py lines 151-184).  `if body.vector is None: if
not body.text: return error; else embed body.text; else emb = body.vector`,
then query the index with the payload.  Python's `not body.text` is true for
both `None` and the empty string. -/
def pinecone_query {α μ ε ρ : Type} (ragNamespace : String)
    (embedOne : String → Except ε (List α))
    (indexQuery : QueryPayload α μ → ρ)
    (body : QueryIn α μ) : QueryOut ε ρ × List (QCall α μ) :=
  let ns := get_namespace ragNamespace body.nspace
  match body.vector with
  | none =>
    match body.text with
    | none => (.missingInput, [])
    | some t =>
      if t = "" then (.missingInput, [])
      else
        match embedOne t with
        | .error e => (.embedError e, [.embedCall [t]])
        | .ok emb =>
          let payload := mkPayload ns emb body
          (.success ns (indexQuery payload), [.embedCall [t], .queryCall payload])
  | some v =>
    let payload := mkPayload ns v body
    (.success ns (indexQuery payload), [.queryCall payload])

/-- C2. Query precedence (app.py lines 159-171): when both a vector and a
text are supplied, the orchestrator uses the supplied vector directly in the
store payload, performs exactly one remote call (the index query — the
embedding provider is never invoked: the trace holds no `embedCall` and the
result does not depend on `embedOne`), and the text is silently ignored. -/
theorem query_vector_precedence {α μ ε ρ : Type} (ragNamespace : String)
    (embedOne : String → Except ε (List α)) (indexQuery : QueryPayload α μ → ρ)
    (nsb : Option String) (v : List α) (t : String)
    (f : Option (List (String × μ))) (k : Int) (iv im : Bool) :
    pinecone_query ragNamespace embedOne indexQuery ⟨nsb, some v, some t, f, k, iv, im⟩ =
      (.success (get_namespace ragNamespace nsb)
        (indexQuery (mkPayload (get_namespace ragNamespace nsb) v ⟨nsb, some v, some t, f, k, iv, im⟩)),
       [.queryCall (mkPayload (get_namespace ragNamespace nsb) v ⟨nsb, some v, some t, f, k, iv, im⟩)]) ∧
    (pinecone_query ragNamespace embedOne indexQuery ⟨nsb, some v, some t, f, k, iv, im⟩).2.all
      (fun c => match c with | .embedCall _ => false | .queryCall _ => true) = true := by
  constructor
  · rfl
  · rfl

/-- C3, counterexample.  The claim says the missing-input error is returned
"exactly when neither a vector nor a text is given; when at least one is
given, no such error is returned".  The request below supplies a text (the
empty string, so `text` is not absent), yet the code returns the
missing-input error, because Python's `not body.text` is also true for the
empty string (app.py line 162). -/
theorem query_missing_input_empty_text_counterexample :
    pinecone_query "default" (fun _ => (.ok [] : Except Unit (List Int)))
        (fun (_ : QueryPayload Int Unit) => ())
        ⟨none, none, some "", none, 24, false, true⟩ =
      (.missingInput, []) ∧
    (⟨none, none, some "", none, 24, false, true⟩ : QueryIn Int Unit).text ≠ none := by
  exact ⟨rfl, by simp⟩

/-- C3, amended.  The missing-input error `{ok:false, error}` is returned
with no remote call made exactly when the vector is absent and the text is
absent or empty; when a vector or a non-empty text is given, the
missing-input error is never returned. -/
theorem query_missing_input_characterization {α μ ε ρ : Type}
    (ragNamespace : String) (embedOne : String → Except ε (List α))
    (indexQuery : QueryPayload α μ → ρ) (body : QueryIn α μ) :
    pinecone_query ragNamespace embedOne indexQuery body = (.missingInput, []) ↔
      body.vector = none ∧ (body.text = none ∨ body.text = some "") := by
  obtain ⟨nsb, vec, txt, f, k, iv, im⟩ := body
  cases vec with
  | some v => simp [pinecone_query]
  | none =>
    cases txt with
    | none => simp [pinecone_query]
    | some t =>
      by_cases ht : t = ""
      · subst ht
        simp [pinecone_query]
      · cases h : embedOne t with
        | error e => simp [pinecone_query, ht, h]
        | ok emb => simp [pinecone_query, ht, h]

/-- C10. A query whose vector is absent and whose text is supplied but equal
to the empty string returns the missing-input error without any remote call,
and behaves exactly as if the text were absent (app.py lines 161-163). -/
theorem query_empty_text_is_missing_input {α μ ε ρ : Type}
    (ragNamespace : String) (embedOne : String → Except ε (List α))
    (indexQuery : QueryPayload α μ → ρ) (nsb : Option String)
    (f : Option (List (String × μ))) (k : Int) (iv im : Bool) :
    pinecone_query ragNamespace embedOne indexQuery ⟨nsb, none, some "", f, k, iv, im⟩ =
      (.missingInput, []) ∧
    pinecone_query ragNamespace embedOne indexQuery ⟨nsb, none, some "", f, k, iv, im⟩ =
      pinecone_query ragNamespace embedOne indexQuery ⟨nsb, none, none, f, k, iv, im⟩ := by
  exact ⟨rfl, rfl⟩

/-! ## Embedding endpoint (`embed`, app.py lines 127-136) -/

/-- One element of the provider response's `data` array; the code reads its
`embedding` field. -/
structure EmbedDatum (α : Type) where
  embedding : List α
deriving DecidableEq

/-- `embed` (app.py lines 127-136): call the embedding provider with the
request's `texts` (oracle `provider` models `client.embeddings.create`,
whose `resp.data` is the returned list; a provider exception is an
`Except.error`, propagated unhandled), then return
`[d.embedding for d in resp.data]`. -/
def embed {α ε : Type} (provider : List String → Except ε (List (EmbedDatum α)))
    (texts : List String) : Except ε (List (List α)) :=
  match provider texts with
  | .error e => .error e
  | .ok data => .ok (data.map EmbedDatum.embedding)

/-- C7. `embed` propagates a provider error to the caller unchanged; and
when the provider succeeds — its contract being one datum per input text, in
order — the returned vector list has the length of the input list and its
i-th vector is the embedding of the provider's i-th datum, i.e. of the i-th
input text (order preserved, stated index-wise via `get?`). -/
theorem embed_order_preserved {α ε : Type}
    (provider : List String → Except ε (List (EmbedDatum α)))
    (texts : List String) :
    (∀ e, provider texts = .error e → embed provider texts = .error e) ∧
    (∀ data, provider texts = .ok data → data.length = texts.length →
      embed provider texts = .ok (data.map EmbedDatum.embedding) ∧
      (data.map EmbedDatum.embedding).length = texts.length ∧
      ∀ (i : Nat), (data.map EmbedDatum.embedding)[i]? =
        data[i]?.map EmbedDatum.embedding) := by
  constructor
  · intro e he
    simp [embed, he]
  · intro data hdata hlen
    refine ⟨by simp [embed, hdata], by simp [hlen], fun i => ?_⟩
    simp

/-- C7 witness: a three-element input with a stub provider echoing one
deterministic vector per input. -/
theorem embed_order_preserved_witness :
    @embed Int Unit
        (fun ts => .ok (ts.map (fun t => ⟨[(t.length : Int)]⟩)))
        ["a", "bb", "ccc"] =
      .ok [[(1 : Int)], [2], [3]] := by
  have h := @embed_order_preserved Int Unit
    (fun ts => .ok (ts.map (fun t => ⟨[(t.length : Int)]⟩))) ["a", "bb", "ccc"]
  exact (h.2 [⟨[1]⟩, ⟨[2]⟩, ⟨[3]⟩] rfl rfl).1

/-! ## Upsert endpoint (`pinecone_upsert`, app.py lines 138-143) -/

/-- A request point and likewise the dict
`{"id": p.id, "values": p.values, "metadata": p.metadata}` forwarded to the
store (app.py lines 73-76 and 141): id, vector values, metadata mapping
(abstract type `μ`). -/
structure UpsertPoint (α μ : Type) where
  id : String
  values : List α
  metadata : μ
deriving DecidableEq

/-- Request body `UpsertIn` (app.py lines 78-80). -/
structure UpsertIn (α μ : Type) where
  nspace : Option String
  points : List (UpsertPoint α μ)

/-- The remote call `index.upsert(vectors=items, namespace=ns)` (app.py
line 142). -/
structure UpsertCall (α μ : Type) where
  vectors : List (UpsertPoint α μ)
  nspace : String
deriving DecidableEq

/-- Response body `{"ok": True, "namespace": ns, "count": len(items)}`
(app.py line 143). -/
structure UpsertOut where
  ok : Bool
  nspace : String
  count : Nat
deriving DecidableEq

/-- `pinecone_upsert` (app.py lines 138-143): resolve the namespace, rebuild
each point as an id/values/metadata dict, call `index.upsert` (oracle
`indexUpsert`, whose exception is an `Except.error`, propagated unhandled),
and on success return ok, the resolved namespace, and the item count. -/
def pinecone_upsert {α μ σ : Type} (ragNamespace : String)
    (indexUpsert : UpsertCall α μ → Except σ Unit)
    (body : UpsertIn α μ) : Except σ UpsertOut × List (UpsertCall α μ) :=
  let ns := get_namespace ragNamespace body.nspace
  let items := body.points.map (fun p => ⟨p.id, p.values, p.metadata⟩)
  let call : UpsertCall α μ := ⟨items, ns⟩
  match indexUpsert call with
  | .error e => (.error e, [call])
  | .ok _ => (.ok ⟨true, ns, items.length⟩, [call])

/-- C8. `pinecone_upsert` forwards every input point to the store with its
id, values and metadata intact (the single store call carries exactly the
field-for-field image of `body.points`, under the resolved namespace), and
when the store call succeeds it returns
`{ok := true, namespace := resolved, count := number of points}`. -/
theorem upsert_success_shape {α μ σ : Type} (ragNamespace : String)
    (indexUpsert : UpsertCall α μ → Except σ Unit) (nsb : Option String)
    (points : List (UpsertPoint α μ))
    (hok : indexUpsert ⟨points.map (fun p => ⟨p.id, p.values, p.metadata⟩),
        get_namespace ragNamespace nsb⟩ = .ok ()) :
    pinecone_upsert ragNamespace indexUpsert ⟨nsb, points⟩ =
      (.ok ⟨true, get_namespace ragNamespace nsb, points.length⟩,
       [⟨points.map (fun p => ⟨p.id, p.values, p.metadata⟩),
         get_namespace ragNamespace nsb⟩]) ∧
    ∀ (i : Nat), ((⟨points.map (fun p => ⟨p.id, p.values, p.metadata⟩),
        get_namespace ragNamespace nsb⟩ : UpsertCall α μ).vectors[i]?) =
      points[i]?.map (fun p => (⟨p.id, p.values, p.metadata⟩ : UpsertPoint α μ)) := by
  constructor
  · simp only [pinecone_upsert, hok, List.length_map]
  · intro i
    simp

/-- C8 witness: two concrete points, a store stub that always succeeds. -/
theorem upsert_success_shape_witness :
    @pinecone_upsert Int String Unit "default"
        (fun _ => .ok ())
        ⟨some " ns1 ", [⟨"a", [1, 2], "m1"⟩, ⟨"b", [3], "m2"⟩]⟩ =
      (.ok ⟨true, "ns1", 2⟩,
       [⟨[⟨"a", [1, 2], "m1"⟩, ⟨"b", [3], "m2"⟩], "ns1"⟩]) := by
  have h := @upsert_success_shape Int String Unit
    "default" (fun _ => .ok ()) (some " ns1 ")
    [⟨"a", [1, 2], "m1"⟩, ⟨"b", [3], "m2"⟩] rfl
  exact h.1

/-! ## Text extraction (`extract` and helpers, app.py lines 49-67, 106-125)

The library-backed decoders are oracles: `pdfX` models `extract_pdf`
(app.py lines 49-55, `PdfReader`-based, may raise), `docxX` models
`extract_docx` (lines 57-61, `DocxDoc`-based, may raise), and `u8`/`lat`
model `raw.decode("utf-8", errors="ignore")` / `raw.decode("latin-1",
errors="ignore")` inside `extract_txt` (lines 63-67).  The raw upload bytes
have abstract type `β`. -/

/-- Python's `needle.isprefix`-style check: does `n` start `h`?  (Helper for
substring containment.) -/
def leadsWith : List Char → List Char → Bool
  | [], _ => true
  | _ :: _, [] => false
  | a :: as, b :: bs => a == b && leadsWith as bs

/-- Does `n` occur contiguously in the haystack? -/
def containsChars (n : List Char) : List Char → Bool
  | [] => n.isEmpty
  | c :: t => leadsWith n (c :: t) || containsChars n t

/-- Python's `needle in hay` substring test. -/
def strContains (hay needle : String) : Bool :=
  containsChars needle.data hay.data

/-- Python's `s.endswith(suffix)`. -/
def strEndsWith (s suffix : String) : Bool :=
  leadsWith suffix.data.reverse s.data.reverse

/-- Python's `s.lower()` (ASCII letters; the dispatch only compares against
the ASCII literal ".txt"). -/
def pyLower (s : String) : String :=
  String.mk (s.data.map Char.toLower)

/-- Python's `a or b` for an optional string `a`: `b` when `a` is `None` or
empty, else `a`. -/
def orStr (a : Option String) (b : String) : String :=
  match a with
  | some s => if s = "" then b else s
  | none => b

/-- `kind = mime or file.content_type or "application/octet-stream"`
(app.py line 109). -/
def resolveKind (mime contentType : Option String) : String :=
  orStr mime (orStr contentType "application/octet-stream")

/-- The word-processor branch guard
`"word" in kind or "msword" in kind or "officedocument" in kind`
(app.py line 113). -/
def isWordKind (kind : String) : Bool :=
  strContains kind "word" || strContains kind "msword" ||
  strContains kind "officedocument"

/-- The plain-text branch guard
`"text" in kind or file.filename.lower().endswith(".txt")`
(app.py line 115). -/
def isTextKind (kind filename : String) : Bool :=
  strContains kind "text" || strEndsWith (pyLower filename) ".txt"

/-- `extract_txt` (app.py lines 63-67): try UTF-8 with `errors="ignore"`; on
an exception fall back to Latin-1 with `errors="ignore"` (which cannot
fail).  Total whatever the decode oracles do. -/
def extract_txt {β δ : Type} (u8 : β → Except δ String) (lat : β → String)
    (raw : β) : String :=
  match u8 raw with
  | .ok s => s
  | .error _ => lat raw

/-- Which local extractor ran, in order (models which of
`extract_pdf` / `extract_docx` / `extract_txt` were invoked). -/
inductive ExtractStep where
  | pdfCall
  | docxCall
  | txtCall
deriving DecidableEq

/-- An exception escaping `/extract`: one raised by the PDF decoder in the
explicit-PDF branch, or one raised by the Word decoder in the explicit-Word
branch. -/
inductive ExtractErr (επ εδ : Type) where
  | pdf (e : επ)
  | docx (e : εδ)
deriving DecidableEq

/-- The dispatch of `extract` before normalization (app.py lines 108-122):
choose a branch from the kind hint and filename; in the explicit PDF and
Word branches a decoder exception propagates; in the unknown-kind fallback a
PDF failure is caught and the plain-text path runs instead.  Returns the raw
branch text (or error) together with the extractor-call trace. -/
def extractRaw {β επ εδ δ : Type} (pdfX : β → Except επ String)
    (docxX : β → Except εδ String) (u8 : β → Except δ String)
    (lat : β → String) (raw : β) (mime contentType : Option String)
    (filename : String) : Except (ExtractErr επ εδ) String × List ExtractStep :=
  let kind := resolveKind mime contentType
  if strContains kind "pdf" then
    match pdfX raw with
    | .ok t => (.ok t, [.pdfCall])
    | .error e => (.error (.pdf e), [.pdfCall])
  else if isWordKind kind then
    match docxX raw with
    | .ok t => (.ok t, [.docxCall])
    | .error e => (.error (.docx e), [.docxCall])
  else if isTextKind kind filename then
    (.ok (extract_txt u8 lat raw), [.txtCall])
  else
    match pdfX raw with
    | .ok t => (.ok t, [.pdfCall])
    | .error _ => (.ok (extract_txt u8 lat raw), [.pdfCall, .txtCall])

/-- Python `text.split()` on a character list, with the accumulator holding
the current word reversed: split on whitespace runs, dropping empty pieces. -/
def splitWsAux : List Char → List Char → List (List Char)
  | [], acc => if acc.isEmpty then [] else [acc.reverse]
  | c :: t, acc =>
    if pyIsSpace c then
      if acc.isEmpty then splitWsAux t [] else acc.reverse :: splitWsAux t []
    else splitWsAux t (c :: acc)

/-- Python `" ".join(words)` on character lists. -/
def joinSp : List (List Char) → List Char
  | [] => []
  | [w] => w
  | w :: ws => w ++ ' ' :: joinSp ws

/-- `" ".join(text.split())` (app.py line 124) on a character list. -/
def normalizeWsL (l : List Char) : List Char :=
  joinSp (splitWsAux l [])

/-- `text = " ".join(text.split())` (app.py line 124). -/
def normalizeWs (s : String) : String :=
  String.mk (normalizeWsL s.data)

/-- `extract` (app.py lines 106-125): dispatch, then normalize the branch
text uniformly at the boundary. -/
def extract {β επ εδ δ : Type} (pdfX : β → Except επ String)
    (docxX : β → Except εδ String) (u8 : β → Except δ String)
    (lat : β → String) (raw : β) (mime contentType : Option String)
    (filename : String) : Except (ExtractErr επ εδ) String × List ExtractStep :=
  let r := extractRaw pdfX docxX u8 lat raw mime contentType filename
  (r.1.map normalizeWs, r.2)

/-- C4. Unknown-kind fallback (app.py lines 117-122): when the kind hint
matches none of the pdf, word-processor, or text branches, extraction never
propagates an exception — the result is always `ok`; and whenever the PDF
path fails, the plain-text decoding path runs and its decoded text is
returned (normalized). -/
theorem extract_unknown_kind_fallback {β επ εδ δ : Type}
    (pdfX : β → Except επ String) (docxX : β → Except εδ String)
    (u8 : β → Except δ String) (lat : β → String) (raw : β)
    (mime contentType : Option String) (filename : String)
    (hp : strContains (resolveKind mime contentType) "pdf" = false)
    (hw : isWordKind (resolveKind mime contentType) = false)
    (ht : isTextKind (resolveKind mime contentType) filename = false) :
    (extract pdfX docxX u8 lat raw mime contentType filename).1.isOk = true ∧
    ∀ e, pdfX raw = .error e →
      extract pdfX docxX u8 lat raw mime contentType filename =
        (.ok (normalizeWs (extract_txt u8 lat raw)), [.pdfCall, .txtCall]) := by
  constructor
  · cases hpdf : pdfX raw with
    | ok t => simp [extract, extractRaw, hp, hw, ht, hpdf, Except.map, Except.isOk, Except.toBool]
    | error e => simp [extract, extractRaw, hp, hw, ht, hpdf, Except.map, Except.isOk, Except.toBool]
  · intro e he
    simp [extract, extractRaw, hp, hw, ht, he, Except.map]

/-- C4 witness: an octet-stream upload whose PDF decoding fails falls back
to the text decoder. -/
theorem extract_unknown_kind_fallback_witness :
    strContains (resolveKind none none) "pdf" = false ∧
    isWordKind (resolveKind none none) = false ∧
    isTextKind (resolveKind none none) "f.bin" = false ∧
    extract (fun (_ : Nat) => (.error () : Except Unit String))
        (fun _ => (.error () : Except Unit String))
        (fun _ => (.ok " hello  world " : Except Unit String)) (fun _ => "")
        0 none none "f.bin" =
      (.ok "hello world", [.pdfCall, .txtCall]) := by
  refine ⟨by decide, by decide, by decide, ?_⟩
  exact (extract_unknown_kind_fallback
    (fun (_ : Nat) => (.error () : Except Unit String))
    (fun _ => (.error () : Except Unit String))
    (fun _ => (.ok " hello  world " : Except Unit String)) (fun _ => "")
    0 none none "f.bin" (by decide) (by decide) (by decide)).2 () rfl

/-- C5. Dispatch exclusivity and order (app.py lines 109-122): a kind hint
containing "pdf" runs only the PDF extractor (the word-processor path is
never invoked: the trace is exactly `[pdfCall]` and the result does not
depend on the Word oracle); and a filename ending in ".txt"
(case-insensitive) with a kind hint matching neither the pdf nor the word
branch takes the plain-text decoding path, whatever the raw bytes are. -/
theorem extract_dispatch_exclusive {β επ εδ δ : Type}
    (pdfX : β → Except επ String) (docxX : β → Except εδ String)
    (u8 : β → Except δ String) (lat : β → String) (raw : β)
    (mime contentType : Option String) (filename : String) :
    (strContains (resolveKind mime contentType) "pdf" = true →
      (extract pdfX docxX u8 lat raw mime contentType filename).2 = [.pdfCall] ∧
      ∀ (docxX2 : β → Except εδ String),
        extract pdfX docxX2 u8 lat raw mime contentType filename =
          extract pdfX docxX u8 lat raw mime contentType filename) ∧
    (strContains (resolveKind mime contentType) "pdf" = false →
      isWordKind (resolveKind mime contentType) = false →
      strEndsWith (pyLower filename) ".txt" = true →
      extract pdfX docxX u8 lat raw mime contentType filename =
        (.ok (normalizeWs (extract_txt u8 lat raw)), [.txtCall])) := by
  constructor
  · intro hp
    constructor
    · cases hpdf : pdfX raw with
      | ok t => simp [extract, extractRaw, hp, hpdf]
      | error e => simp [extract, extractRaw, hp, hpdf]
    · intro docxX2
      cases hpdf : pdfX raw with
      | ok t => simp [extract, extractRaw, hp, hpdf]
      | error e => simp [extract, extractRaw, hp, hpdf]
  · intro hp hw htxt
    have ht : isTextKind (resolveKind mime contentType) filename = true := by
      simp [isTextKind, htxt]
    simp [extract, extractRaw, hp, hw, ht, Except.map]

/-- C5 witness: part one at a "application/pdf" hint (two different Word
oracles, same outcome, trace `[pdfCall]`), part two at a ".TXT" filename
with no kind hint. -/
theorem extract_dispatch_exclusive_witness :
    (extract (fun (_ : Nat) => (.ok "A  B" : Except Unit String))
        (fun _ => (.error () : Except Unit String))
        (fun _ => (.ok "" : Except Unit String)) (fun _ => "")
        0 (some "application/pdf") none "a.docx").2 = [.pdfCall] ∧
    extract (fun (_ : Nat) => (.error () : Except Unit String))
        (fun _ => (.error () : Except Unit String))
        (fun _ => (.ok " t  x " : Except Unit String)) (fun _ => "")
        0 none none "Notes.TXT" =
      (.ok "t x", [.txtCall]) := by
  constructor
  · exact ((extract_dispatch_exclusive
      (fun (_ : Nat) => (.ok "A  B" : Except Unit String))
      (fun _ => (.error () : Except Unit String))
      (fun _ => (.ok "" : Except Unit String)) (fun _ => "")
      0 (some "application/pdf") none "a.docx").1 (by decide)).1
  · exact (extract_dispatch_exclusive
      (fun (_ : Nat) => (.error () : Except Unit String))
      (fun _ => (.error () : Except Unit String))
      (fun _ => (.ok " t  x " : Except Unit String)) (fun _ => "")
      0 none none "Notes.TXT").2 (by decide) (by decide) (by decide)

/-- C9. Explicit-branch failures (app.py lines 111-114): in the explicit PDF
branch a PDF-decoder failure propagates to the caller as is (tagged with its
branch), with no other decoding path attempted (the trace is exactly that
one call); likewise in the explicit Word branch for a Word-decoder
failure. -/
theorem extract_explicit_branch_error {β επ εδ δ : Type}
    (pdfX : β → Except επ String) (docxX : β → Except εδ String)
    (u8 : β → Except δ String) (lat : β → String) (raw : β)
    (mime contentType : Option String) (filename : String) :
    (∀ e, strContains (resolveKind mime contentType) "pdf" = true →
      pdfX raw = .error e →
      extract pdfX docxX u8 lat raw mime contentType filename =
        (.error (.pdf e), [.pdfCall])) ∧
    (∀ e, strContains (resolveKind mime contentType) "pdf" = false →
      isWordKind (resolveKind mime contentType) = true →
      docxX raw = .error e →
      extract pdfX docxX u8 lat raw mime contentType filename =
        (.error (.docx e), [.docxCall])) := by
  constructor
  · intro e hp he
    simp [extract, extractRaw, hp, he, Except.map]
  · intro e hp hw he
    simp [extract, extractRaw, hp, hw, he, Except.map]

/-- C9 witness: a failing PDF decode under an "application/pdf" hint and a
failing Word decode under an "application/msword" hint each surface their
error with a single extractor call. -/
theorem extract_explicit_branch_error_witness :
    extract (fun (_ : Nat) => (.error 7 : Except Nat String))
        (fun _ => (.error "boom" : Except String String))
        (fun _ => (.ok "" : Except Unit String)) (fun _ => "")
        0 (some "application/pdf") none "a.pdf" =
      (.error (.pdf 7), [.pdfCall]) ∧
    extract (fun (_ : Nat) => (.error 7 : Except Nat String))
        (fun _ => (.error "boom" : Except String String))
        (fun _ => (.ok "" : Except Unit String)) (fun _ => "")
        0 (some "application/msword") none "a.doc" =
      (.error (.docx "boom"), [.docxCall]) := by
  constructor
  · exact (extract_explicit_branch_error
      (fun (_ : Nat) => (.error 7 : Except Nat String))
      (fun _ => (.error "boom" : Except String String))
      (fun _ => (.ok "" : Except Unit String)) (fun _ => "")
      0 (some "application/pdf") none "a.pdf").1 7 (by decide) rfl
  · exact (extract_explicit_branch_error
      (fun (_ : Nat) => (.error 7 : Except Nat String))
      (fun _ => (.error "boom" : Except String String))
      (fun _ => (.ok "" : Except Unit String)) (fun _ => "")
      0 (some "application/msword") none "a.doc").2 "boom" (by decide)
      (by decide) rfl

/-! ## Properties of the whitespace normalization (app.py line 124) -/

/-- A character that is not Python whitespace. -/
def notSpace (c : Char) : Bool := !pyIsSpace c

/-- No leading whitespace character. -/
def noLeadSpace : List Char → Bool
  | [] => true
  | c :: _ => notSpace c

/-- No trailing whitespace character. -/
def noTrailSpace (l : List Char) : Bool :=
  match l.getLast? with
  | some c => notSpace c
  | none => true

/-- Every whitespace character occurring is a plain space `' '`. -/
def spacesArePlain (l : List Char) : Bool :=
  l.all (fun c => notSpace c || c == ' ')

/-- No two adjacent whitespace characters. -/
def noAdjSpaces : List Char → Bool
  | [] => true
  | c :: t =>
    (match t.head? with
     | some d => !(pyIsSpace c && pyIsSpace d)
     | none => true) && noAdjSpaces t

/-- A single-line normalized string: no leading or trailing whitespace, the
only whitespace character is the plain space (so no newlines), and
whitespace runs have length one. -/
def isNormalized (s : String) : Bool :=
  spacesArePlain s.data && noLeadSpace s.data && noTrailSpace s.data &&
  noAdjSpaces s.data

/-- The non-whitespace content of a string, in order. -/
def contentOf (s : String) : List Char :=
  s.data.filter notSpace

theorem splitWsAux_words_good (l : List Char) :
    ∀ acc, acc.all notSpace →
      ∀ w ∈ splitWsAux l acc, w ≠ [] ∧ w.all notSpace := by
  induction l with
  | nil =>
    intro acc hacc w hw
    simp only [splitWsAux] at hw
    by_cases he : acc.isEmpty
    · rw [if_pos he] at hw
      simp at hw
    · rw [if_neg he] at hw
      simp only [List.mem_singleton] at hw
      subst hw
      refine ⟨by simpa [List.isEmpty_iff] using he, by simpa using hacc⟩
  | cons c t ih =>
    intro acc hacc w hw
    simp only [splitWsAux] at hw
    by_cases hc : pyIsSpace c
    · rw [if_pos hc] at hw
      by_cases he : acc.isEmpty
      · rw [if_pos he] at hw
        exact ih [] (by simp) w hw
      · rw [if_neg he] at hw
        rcases List.mem_cons.mp hw with hw | hw
        · subst hw
          refine ⟨by simpa [List.isEmpty_iff] using he, by simpa using hacc⟩
        · exact ih [] (by simp) w hw
    · rw [if_neg hc] at hw
      refine ih (c :: acc) ?_ w hw
      simp only [List.all_cons, Bool.and_eq_true]
      exact ⟨by simp [notSpace, hc], hacc⟩

theorem joinSp_cons_cons (w w2 : List Char) (t : List (List Char)) :
    joinSp (w :: w2 :: t) = w ++ ' ' :: joinSp (w2 :: t) := rfl

theorem joinSp_ne_nil {ws : List (List Char)} (hne : ws ≠ [])
    (hw : ∀ w ∈ ws, w ≠ []) : joinSp ws ≠ [] := by
  match ws with
  | [] => exact absurd rfl hne
  | [w] => simpa [joinSp] using hw w (by simp)
  | w :: w2 :: t =>
    rw [joinSp_cons_cons]
    intro h
    exact hw w (by simp) (List.append_eq_nil.mp h).1

theorem getLast?_append_right {l₁ l₂ : List Char} (h : l₂ ≠ []) :
    (l₁ ++ l₂).getLast? = l₂.getLast? :=
  List.getLast?_append_of_ne_nil l₁ h

theorem spacesArePlain_joinSp {ws : List (List Char)}
    (h : ∀ w ∈ ws, w.all notSpace) : spacesArePlain (joinSp ws) := by
  match ws with
  | [] => simp [joinSp, spacesArePlain]
  | [w] =>
    have := h w (by simp)
    simp only [spacesArePlain, joinSp, List.all_eq_true] at this ⊢
    intro c hc
    simp [this c hc]
  | w :: w2 :: t =>
    rw [joinSp_cons_cons]
    have hw := h w (by simp)
    have ih := @spacesArePlain_joinSp (w2 :: t)
      (fun x hx => h x (by simp [hx]))
    simp only [spacesArePlain, List.all_append, List.all_cons,
      Bool.and_eq_true] at *
    refine ⟨?_, by simp, ih⟩
    rw [List.all_eq_true] at hw ⊢
    intro c hc
    simp [hw c hc]

theorem noLeadSpace_joinSp {ws : List (List Char)}
    (hne : ∀ w ∈ ws, w ≠ []) (hsp : ∀ w ∈ ws, w.all notSpace) :
    noLeadSpace (joinSp ws) := by
  match ws with
  | [] => simp [joinSp, noLeadSpace]
  | [w] =>
    match w, hne w (by simp) with
    | c :: rest, _ =>
      have := hsp (c :: rest) (by simp)
      simp only [List.all_cons, Bool.and_eq_true] at this
      simpa [joinSp, noLeadSpace] using this.1
  | w :: w2 :: t =>
    rw [joinSp_cons_cons]
    match w, hne w (by simp) with
    | c :: rest, _ =>
      have := hsp (c :: rest) (by simp)
      simp only [List.all_cons, Bool.and_eq_true] at this
      simpa [noLeadSpace] using this.1

theorem noTrailSpace_joinSp {ws : List (List Char)}
    (hne : ∀ w ∈ ws, w ≠ []) (hsp : ∀ w ∈ ws, w.all notSpace) :
    noTrailSpace (joinSp ws) := by
  match ws with
  | [] => simp [joinSp, noTrailSpace]
  | [w] =>
    simp only [joinSp, noTrailSpace]
    cases hl : w.getLast? with
    | none => simp
    | some c =>
      have hc := List.mem_of_getLast?_eq_some hl
      have := List.all_eq_true.mp (hsp w (by simp)) c hc
      simpa using this
  | w :: w2 :: t =>
    rw [joinSp_cons_cons]
    have hnil : joinSp (w2 :: t) ≠ [] :=
      joinSp_ne_nil (by simp) (fun x hx => hne x (by simp [hx]))
    have ih := @noTrailSpace_joinSp (w2 :: t)
      (fun x hx => hne x (by simp [hx])) (fun x hx => hsp x (by simp [hx]))
    unfold noTrailSpace at ih ⊢
    rw [show w ++ ' ' :: joinSp (w2 :: t) = (w ++ [' ']) ++ joinSp (w2 :: t) by
      simp]
    rw [getLast?_append_right hnil]
    exact ih

theorem noAdjSpaces_all_notSpace {l : List Char} (h : l.all notSpace) :
    noAdjSpaces l := by
  induction l with
  | nil => simp [noAdjSpaces]
  | cons c t ih =>
    simp only [List.all_cons, Bool.and_eq_true] at h
    simp only [noAdjSpaces, Bool.and_eq_true]
    refine ⟨?_, ih h.2⟩
    cases t.head? with
    | none => simp
    | some d =>
      have : pyIsSpace c = false := by
        simpa [notSpace] using h.1
      simp [this]

theorem noAdjSpaces_append_of_all_notSpace {l₁ l₂ : List Char}
    (h₁ : l₁.all notSpace) (h₂ : noAdjSpaces l₂) :
    noAdjSpaces (l₁ ++ l₂) := by
  induction l₁ with
  | nil => simpa
  | cons c t ih =>
    simp only [List.all_cons, Bool.and_eq_true] at h₁
    rw [List.cons_append]
    simp only [noAdjSpaces, Bool.and_eq_true]
    refine ⟨?_, ih h₁.2⟩
    cases (t ++ l₂).head? with
    | none => simp
    | some d =>
      have : pyIsSpace c = false := by
        simpa [notSpace] using h₁.1
      simp [this]

theorem noAdjSpaces_joinSp {ws : List (List Char)}
    (hne : ∀ w ∈ ws, w ≠ []) (hsp : ∀ w ∈ ws, w.all notSpace) :
    noAdjSpaces (joinSp ws) := by
  match ws with
  | [] => simp [joinSp, noAdjSpaces]
  | [w] => exact noAdjSpaces_all_notSpace (by simpa [joinSp] using hsp w (by simp))
  | w :: w2 :: t =>
    rw [joinSp_cons_cons]
    have hne2 : ∀ x ∈ w2 :: t, x ≠ [] := fun x hx => hne x (by simp [hx])
    have hsp2 : ∀ x ∈ w2 :: t, x.all notSpace := fun x hx => hsp x (by simp [hx])
    refine noAdjSpaces_append_of_all_notSpace (hsp w (by simp)) ?_
    simp only [noAdjSpaces, Bool.and_eq_true]
    refine ⟨?_, noAdjSpaces_joinSp hne2 hsp2⟩
    cases hh : (joinSp (w2 :: t)).head? with
    | none => simp
    | some d =>
      have hlead := noLeadSpace_joinSp hne2 hsp2
      match hj : joinSp (w2 :: t), hh with
      | c :: rest, hh =>
        rw [hj] at hlead
        simp only [List.head?_cons, Option.some.injEq] at hh
        subst hh
        simp only [noLeadSpace, notSpace] at hlead
        simp [Bool.not_eq_true] at hlead ⊢
        simp [hlead]

theorem isNormalized_normalizeWs (s : String) :
    isNormalized (normalizeWs s) = true := by
  have hgood := splitWsAux_words_good s.data [] (by simp)
  have hne : ∀ w ∈ splitWsAux s.data [], w ≠ [] := fun w hw => (hgood w hw).1
  have hsp : ∀ w ∈ splitWsAux s.data [], w.all notSpace :=
    fun w hw => (hgood w hw).2
  simp only [isNormalized, normalizeWs, normalizeWsL, Bool.and_eq_true]
  exact ⟨⟨⟨spacesArePlain_joinSp hsp, noLeadSpace_joinSp hne hsp⟩,
    noTrailSpace_joinSp hne hsp⟩, noAdjSpaces_joinSp hne hsp⟩

theorem filter_joinSp {ws : List (List Char)}
    (hsp : ∀ w ∈ ws, w.all notSpace) :
    (joinSp ws).filter notSpace = ws.flatten := by
  match ws with
  | [] => simp [joinSp]
  | [w] =>
    simp only [joinSp, List.flatten_cons, List.flatten_nil, List.append_nil]
    exact List.filter_eq_self.mpr (fun c hc =>
      List.all_eq_true.mp (hsp w (by simp)) c hc)
  | w :: w2 :: t =>
    rw [joinSp_cons_cons]
    rw [List.filter_append, List.filter_cons]
    have hsp2 : ∀ x ∈ w2 :: t, x.all notSpace := fun x hx => hsp x (by simp [hx])
    have hspf : notSpace ' ' = false := by decide
    simp only [hspf, Bool.false_eq_true, if_false]
    rw [filter_joinSp hsp2]
    rw [List.filter_eq_self.mpr (fun c hc =>
      List.all_eq_true.mp (hsp w (by simp)) c hc)]
    simp

theorem join_splitWsAux (l : List Char) :
    ∀ acc, (splitWsAux l acc).flatten = acc.reverse ++ l.filter notSpace := by
  induction l with
  | nil =>
    intro acc
    simp only [splitWsAux]
    by_cases he : acc.isEmpty
    · rw [if_pos he]
      rw [List.isEmpty_iff] at he
      simp [he]
    · rw [if_neg he]
      simp
  | cons c t ih =>
    intro acc
    simp only [splitWsAux]
    by_cases hc : pyIsSpace c
    · have hcf : notSpace c = false := by simp [notSpace, hc]
      rw [if_pos hc]
      by_cases he : acc.isEmpty
      · rw [if_pos he]
        rw [List.isEmpty_iff] at he
        subst he
        simp [ih, List.filter_cons, hcf]
      · rw [if_neg he]
        simp [ih, List.filter_cons, hcf]
    · have hcf : notSpace c = true := by simp [notSpace, hc]
      rw [if_neg hc]
      rw [ih (c :: acc)]
      simp [List.filter_cons, hcf]

theorem contentOf_normalizeWs (s : String) :
    contentOf (normalizeWs s) = contentOf s := by
  have hgood := splitWsAux_words_good s.data [] (by simp)
  simp only [contentOf, normalizeWs, normalizeWsL]
  rw [filter_joinSp (fun w hw => (hgood w hw).2)]
  simpa using join_splitWsAux s.data []

/-- C6. Uniform post-processing (app.py lines 124-125): every extraction
branch's result is the branch's raw extracted string passed through the one
normalization step — `extract` equals `extractRaw` followed by
`normalizeWs` — and the normalized string is single-line: its only
whitespace character is the plain space, with no leading, trailing, or
adjacent whitespace; normalization preserves the non-whitespace content in
order. -/
theorem extract_normalized_uniformly :
    (∀ (β επ εδ δ : Type) (pdfX : β → Except επ String)
      (docxX : β → Except εδ String) (u8 : β → Except δ String)
      (lat : β → String) (raw : β) (mime contentType : Option String)
      (filename : String),
      extract pdfX docxX u8 lat raw mime contentType filename =
        ((extractRaw pdfX docxX u8 lat raw mime contentType filename).1.map
          normalizeWs,
         (extractRaw pdfX docxX u8 lat raw mime contentType filename).2)) ∧
    (∀ s, isNormalized (normalizeWs s) = true) ∧
    (∀ s, contentOf (normalizeWs s) = contentOf s) := by
  exact ⟨fun _ _ _ _ _ _ _ _ _ _ _ _ => rfl, isNormalized_normalizeWs,
    contentOf_normalizeWs⟩

end RAG
